import Mathlib

/-
Verification of the chem-game particle / reaction core.

This file gives a shallow embedding of the repository's code:

* `src/core/reactions/engine.ts` (`normalize`, `sameInputs`, `matchConditions`,
  `findRule`, `react`) together with the rule database
  `src/core/reactions/data.ts`, modelled over `String` / `Nat` so every
  definition is executable.  The JavaScript `Map` built by `normalize`
  enumerates its entries in first-insertion order with the final counts;
  `Array.prototype.sort` with the comparator `(a,b) => a < b ? -1 : a > b ? 1 : 0`
  sorts the (distinct-key) entries into ascending lexicographic id order, which
  is modelled by an insertion sort with an explicit lexicographic comparison on
  the characters, matching the JS string order on the ids that occur.

* `src/core/fx/particles.tsx` (`sampleRadius` and the per-frame update of the
  `Bubbles` instanced particle system) and the `Foam` / `Bubbles` pair from the
  later revision of that file (`src/unnamed/part_004`), modelled over `ℝ`.
  JavaScript numbers are IEEE doubles; the embedding uses real arithmetic, so
  statements about wall containment etc. hold exactly rather than up to
  floating-point rounding.  `Math.random()` draws are passed in explicitly as
  parameters in `[0,1)`.
-/

namespace ChemGame

/-! ## Reaction engine (`engine.ts`, `data.ts`, `types.ts`) -/

/-- `'room' | 'hot' | 'cold'` from `engine.ts`. -/
inductive Temperature
  | room
  | hot
  | cold
deriving DecidableEq

/-- `ReactOpts` from `engine.ts`; `none` models an absent optional field. -/
structure ReactOpts where
  temperature : Option Temperature
  flame : Option Bool

/-- `ReactionCondition` from `chemistry/types.ts`. -/
structure ReactionCondition where
  temperature : Option Temperature
  catalyst : Option String
  flame : Option Bool
deriving DecidableEq

/-- `ReactionOutcome` from `chemistry/types.ts` (the fields used by the data). -/
structure ReactionOutcome where
  products : List String
  gas : Option Bool
  flame : Option String
  colorChange : Option String
  exothermic : Option Bool
  effectTags : List String
  score : Option Nat
deriving DecidableEq

/-- `ReactionRule` from `chemistry/types.ts`. -/
structure ReactionRule where
  id : String
  inputs : List String
  conditions : Option ReactionCondition
  outcome : ReactionOutcome
  hint : Option String
deriving DecidableEq

/-- The rule database `reactionDB` from `reactions/data.ts`. -/
def reactionDB : List ReactionRule :=
  [ { id := "vinegar_soda"
    , inputs := ["vinegar", "baking_soda"]
    , conditions := none
    , outcome :=
      { products := ["salt_acetate", "water"]
      , gas := some true
      , flame := none
      , colorChange := some "#ffffff"
      , exothermic := none
      , effectTags := ["bubbles", "foam", "liquid"]
      , score := some 100 }
    , hint := some "Try mixing an acid with a carbonate." }
  , { id := "flame_na"
    , inputs := ["salt_na", "flame"]
    , conditions := some { temperature := none, catalyst := none, flame := some true }
    , outcome :=
      { products := ["salt_na"]
      , gas := none
      , flame := some "na"
      , colorChange := none
      , exothermic := none
      , effectTags := ["flame_na"]
      , score := some 120 }
    , hint := some "Expose the sodium salt to a flame." }
  , { id := "h2o2_catalytic_foam"
    , inputs := ["hydrogen_peroxide", "catalyst_mn02"]
    , conditions := none
    , outcome :=
      { products := ["water", "oxygen"]
      , gas := some true
      , flame := none
      , colorChange := none
      , exothermic := some true
      , effectTags := ["foam", "smoke", "bubbles"]
      , score := some 200 }
    , hint := some "A catalyst makes it go wild." } ]

/-- Lexicographic comparison of character lists; `strLeChars a b = true` iff the
string with characters `a` sorts no later than `b`.  This is the order realised
by the JS comparator `(a, b) => (a < b ? -1 : a > b ? 1 : 0)`. -/
def strLeChars : List Char → List Char → Bool
  | [], _ => true
  | _ :: _, [] => false
  | c :: cs, d :: ds => if c = d then strLeChars cs ds else decide (c < d)

/-- String comparison used when sorting the multiset key entries. -/
def strLe (a b : String) : Bool :=
  strLeChars a.data b.data

/-- Comparator on `(id, count)` entries: the JS comparator
`([a], [b]) => (a < b ? -1 : a > b ? 1 : 0)` compares ids only. -/
def entryLe (e f : String × Nat) : Bool :=
  strLe e.1 f.1

/-- Insert into a sorted list (one step of the sort of the entry array). -/
def insertBy (le : α → α → Bool) (x : α) : List α → List α
  | [] => [x]
  | y :: ys => if le x y then x :: y :: ys else y :: insertBy le x ys

/-- Sorting of the entry array (`[...counts.entries()].sort(...)`): a stable
comparison sort; on the distinct-key entry lists produced by the `Map` it
computes the unique ascending arrangement. -/
def sortBy (le : α → α → Bool) : List α → List α
  | [] => []
  | x :: xs => insertBy le x (sortBy le xs)

/-- Keys of the JS `Map` built by `normalize`, in insertion order: the distinct
reagent ids in order of first occurrence. -/
def firstKeys : List String → List String
  | [] => []
  | x :: xs => x :: (firstKeys xs).filter (fun y => y != x)

/-- `[...counts.entries()]`: each distinct id paired with its total count. -/
def entriesOf (inputs : List String) : List (String × Nat) :=
  (firstKeys inputs).map (fun id => (id, inputs.count id))

/-- `.join('+')` on the list of `id:count` fragments. -/
def joinPlus : List String → String
  | [] => ""
  | [p] => p
  | p :: ps => p ++ "+" ++ joinPlus ps

/-- `normalize` from `engine.ts`: canonical multiset key, e.g.
`"baking_soda:1+vinegar:2"`. -/
def normalize (inputs : List String) : String :=
  joinPlus ((sortBy entryLe (entriesOf inputs)).map (fun e => e.1 ++ ":" ++ toString e.2))

/-- `sameInputs` from `engine.ts`. -/
def sameInputs (a b : List String) : Bool :=
  normalize a == normalize b

/-- `matchConditions` from `engine.ts`. -/
def matchConditions (rule : ReactionRule) (opts : ReactOpts) : Bool :=
  match rule.conditions with
  | none => true
  | some c =>
    (match c.temperature with
     | some t => decide (opts.temperature.getD Temperature.room = t)
     | none => true) &&
    (match c.flame with
     | some f => decide (opts.flame.getD false = f)
     | none => true)

/-- `findRule` from `engine.ts`: first rule of the database whose inputs match
as a multiset and whose conditions hold. -/
def findRule (inputs : List String) (opts : ReactOpts) : Option ReactionRule :=
  reactionDB.find? (fun rule => sameInputs rule.inputs inputs && matchConditions rule opts)

/-- `react` from `engine.ts` (`null` becomes `none`). -/
def react (inputs : List String) (opts : ReactOpts) : Option ReactionOutcome :=
  (findRule inputs opts).map (fun rule => rule.outcome)

/-- Default options: `react(inputs)` with `opts = {}`. -/
def defaultOpts : ReactOpts :=
  { temperature := none, flame := none }

/-- An id is clean when it contains neither of the characters the multiset key
uses as separators. -/
def CleanId (id : String) : Prop :=
  ':' ∉ id.data ∧ '+' ∉ id.data

/-- Character-list version of `joinPlus`, used to reason about the key. -/
def joinParts : List (List Char) → List Char
  | [] => []
  | [p] => p
  | p :: ps => p ++ '+' :: joinParts ps

/-! ## Particle systems (`particles.tsx`, `part_004`) -/

noncomputable section

/-- `RadiusProfile` from `particles.tsx`: sampled container radius along the
liquid column. -/
structure RadiusProfile where
  bottom : ℝ
  height : ℝ
  radii : List ℝ

/-- `THREE.MathUtils.clamp(value, min, max) = Math.max(min, Math.min(max, value))`. -/
def clamp (v lo hi : ℝ) : ℝ :=
  max lo (min hi v)

/-- `THREE.MathUtils.lerp(x, y, t) = x + (y - x) * t`. -/
def lerp (x y t : ℝ) : ℝ :=
  x + (y - x) * t

/-- `sampleRadius` from `particles.tsx`: clamp the normalized height to `[0,1]`,
scale to a continuous sample index and linearly interpolate adjacent samples;
at (or beyond) the last index return the last sample. -/
def sampleRadius (profile : RadiusProfile) (yNorm : ℝ) : ℝ :=
  let arr := profile.radii
  let n := arr.length
  if n = 0 then 0
  else
    let t := clamp yNorm 0 1 * ((n : ℝ) - 1)
    let i : ℤ := ⌊t⌋
    let f := t - (i : ℝ)
    if (n : ℤ) - 1 ≤ i then arr.getD (n - 1) 0
    else lerp (arr.getD i.toNat 0) (arr.getD (i.toNat + 1) 0) f

/-- Per-particle bubble state (the `Seed` record in `Bubbles`). -/
structure Seed where
  x : ℝ
  y : ℝ
  z : ℝ
  s : ℝ
  spd : ℝ
  phi : ℝ
  drift : ℝ
  baseY : ℝ

/-- One instanced transform: uniform scale plus translation, as written by
`makeScale(s,s,s).setPosition(...)`. -/
structure Transform where
  scale : ℝ
  px : ℝ
  py : ℝ
  pz : ℝ

/-- The five `Math.random()` draws a bubble recycle may consume, each in `[0,1)`:
spawn height, spawn angle, spawn radius, new phase, new drift amplitude. -/
structure BubbleRand where
  uY : ℝ
  uA : ℝ
  uR : ℝ
  uPhi : ℝ
  uDrift : ℝ

/-- Configuration of the `Bubbles` component (its props). -/
structure BubblesCfg where
  centerX : ℝ
  centerY : ℝ
  centerZ : ℝ
  radius : ℝ
  height : ℝ
  spawnBand : ℝ
  topFade : ℝ
  profile : Option RadiusProfile
  wallMarginFrac : ℝ
  innerShrink : ℝ

/-- `H = profile?.height ?? height`. -/
def colH (cfg : BubblesCfg) : ℝ :=
  match cfg.profile with
  | some pr => pr.height
  | none => cfg.height

/-- `localBottom = -H * 0.5`. -/
def localBottomB (cfg : BubblesCfg) : ℝ :=
  -colH cfg * 0.5

/-- `localTop = H * 0.5`. -/
def localTopB (cfg : BubblesCfg) : ℝ :=
  colH cfg * 0.5

/-- `allowedRadiusAtLocal` from `Bubbles`: convert the local offset to absolute
height, normalize against the profile span (guarded by `Math.max(1e-6, H)`) and
sample; without a profile fall back to the constant radius. -/
def allowedRadiusAtLocal (cfg : BubblesCfg) (yLocal : ℝ) : ℝ :=
  match cfg.profile with
  | some pr => sampleRadius pr ((cfg.centerY + yLocal - pr.bottom) / max 1e-6 (colH cfg))
  | none => cfg.radius

/-- `rLocal = Math.max(0, allowedRadiusAtLocal(y) - innerShrink)`. -/
def rLocalAt (cfg : BubblesCfg) (y : ℝ) : ℝ :=
  max 0 (allowedRadiusAtLocal cfg y - cfg.innerShrink)

/-- `rAllowed = Math.max(0, rLocal - (rLocal * wallMarginFrac + s * 0.6))`. -/
def rAllowedAt (cfg : BubblesCfg) (sz y : ℝ) : ℝ :=
  max 0 (rLocalAt cfg y - (rLocalAt cfg y * cfg.wallMarginFrac + sz * 0.6))

/-- Lateral drift offset `Math.sin(phi) * drift`. -/
def driftX (phi drift : ℝ) : ℝ :=
  Real.sin phi * drift

/-- Lateral drift offset `Math.sin(phi * 0.7 + 1.23) * drift`. -/
def driftZ (phi drift : ℝ) : ℝ :=
  Real.sin (phi * 0.7 + 1.23) * drift

/-- Rendered size: fade factor ramps linearly over the top `topFade` fraction,
and the result is floored at `0.0001`. -/
def fadedSize (topFade baseSize tNorm : ℝ) : ℝ :=
  max 0.0001 (baseSize * (1 - clamp ((tNorm - (1 - topFade)) / (1 - (1 - topFade))) 0 1))

/-- The recycle branch of the `Bubbles` update: fresh spawn height inside the
bottom band, area-uniform lateral position inside the allowed disk at that
height, fresh phase, reset drift amplitude. -/
def bubbleRespawn (cfg : BubblesCfg) (rand : BubbleRand) (p : Seed) : Seed :=
  let y2 := localBottomB cfg + rand.uY * (colH cfg * cfg.spawnBand)
  let r0 := rLocalAt cfg y2
  let m0 := r0 * cfg.wallMarginFrac
  let a := rand.uA * (2 * Real.pi)
  let r := Real.sqrt rand.uR * max 0 (r0 - m0)
  { x := Real.cos a * r
  , y := y2
  , z := Real.sin a * r
  , s := p.s
  , spd := p.spd
  , phi := rand.uPhi * (2 * Real.pi)
  , drift := r0 * lerp 0.01 0.03 rand.uDrift
  , baseY := y2 }

/-- One per-frame update of one bubble (the loop body of `useFrame` in
`particles.tsx`): rise, advance phase, lateral drift, wall containment with the
`0.98` damping and drift adaptation, fade, recycle past the top; returns the
new seed together with the emitted transform.  Note the emitted lateral
coordinates are the pre-recycle `tx`/`tz` while the emitted height is the
post-recycle `p.y`. -/
def bubbleStep (cfg : BubblesCfg) (rand : BubbleRand) (dt : ℝ) (p : Seed) :
    Seed × Transform :=
  let y1 := p.y + p.spd * dt
  let phi1 := p.phi + dt * 1.6
  let tx0 := p.x + driftX phi1 p.drift
  let tz0 := p.z + driftZ phi1 p.drift
  let rLocal := rLocalAt cfg y1
  let rAllowed := rAllowedAt cfg p.s y1
  let rr := Real.sqrt (tx0 ^ 2 + tz0 ^ 2)
  let txz :=
    if rAllowed < rr then
      (tx0 * (rAllowed / (rr + 1e-6) * 0.98), tz0 * (rAllowed / (rr + 1e-6) * 0.98))
    else (tx0, tz0)
  let drift1 :=
    if rAllowed < rr then lerp p.drift (rLocal * 0.01) 0.2
    else clamp (p.drift * 1.01) (rLocal * 0.01) (rLocal * 0.03)
  let sOut := fadedSize cfg.topFade p.s ((y1 - localBottomB cfg) / colH cfg)
  let p2 :=
    if localTopB cfg < y1 then bubbleRespawn cfg rand p
    else { p with y := y1, phi := phi1, drift := drift1 }
  (p2,
   { scale := sOut
   , px := cfg.centerX + txz.1
   , py := cfg.centerY + p2.y
   , pz := cfg.centerZ + txz.2 })

/-- The whole `useFrame` callback of `Bubbles`: when disabled it returns
immediately, leaving every seed untouched and emitting nothing. -/
def bubblesFrame (enabled : Bool) (cfg : BubblesCfg) (rands : List BubbleRand)
    (dt : ℝ) (seeds : List Seed) : List Seed × List Transform :=
  if enabled then
    let out := (seeds.zip rands).map (fun pr => bubbleStep cfg pr.2 dt pr.1)
    (out.map Prod.fst, out.map Prod.snd)
  else (seeds, [])

/-- Per-particle foam state (the `Seed` record in `Foam`, `part_004`). -/
structure FoamSeed where
  x : ℝ
  y : ℝ
  z : ℝ
  s : ℝ
  spd : ℝ
  growth : ℝ
  phi : ℝ
  drift : ℝ
  baseS : ℝ

/-- The three `Math.random()` draws a foam respawn consumes, each in `[0,1)`. -/
structure FoamRand where
  uA : ℝ
  uR : ℝ
  uPhi : ℝ

/-- Configuration of the `Foam` component (its props). -/
structure FoamCfg where
  centerX : ℝ
  centerY : ℝ
  centerZ : ℝ
  profile : RadiusProfile
  wallMarginFrac : ℝ
  innerShrink : ℝ
  exitHeight : ℝ

/-- `localTop = H * 0.5`, the liquid surface in local coordinates. -/
def foamLocalTop (cfg : FoamCfg) : ℝ :=
  cfg.profile.height * 0.5

/-- `allowedRadiusAtLocal` from `Foam`. -/
def foamAllowedAtLocal (cfg : FoamCfg) (yLocal : ℝ) : ℝ :=
  sampleRadius cfg.profile
    ((cfg.centerY + yLocal - cfg.profile.bottom) / max 1e-6 cfg.profile.height)

/-- The containment radius used by `Foam` below the surface:
`rLocal = Math.max(0, allowedRadiusAtLocal(y) - innerShrink)` and
`rAllowed = Math.max(0, rLocal - rLocal * wallMarginFrac - s * 0.6)`. -/
def foamRAllowedAt (cfg : FoamCfg) (sz y : ℝ) : ℝ :=
  max 0 (max 0 (foamAllowedAtLocal cfg y - cfg.innerShrink)
    - max 0 (foamAllowedAtLocal cfg y - cfg.innerShrink) * cfg.wallMarginFrac - sz * 0.6)

/-- The recycle branch of the `Foam` update: fresh lateral position inside the
allowed disk at the surface, height back to the surface, size restored to the
base size, fresh phase; speed, growth, drift and base size are kept. -/
def foamRespawn (cfg : FoamCfg) (rand : FoamRand) (p : FoamSeed) : FoamSeed :=
  let r0 := max 0 (foamAllowedAtLocal cfg (foamLocalTop cfg) - cfg.innerShrink)
  let m0 := r0 * cfg.wallMarginFrac
  let a := rand.uA * (2 * Real.pi)
  let r := Real.sqrt rand.uR * max 0 (r0 - m0)
  { p with
    x := Real.cos a * r
  , z := Real.sin a * r
  , y := foamLocalTop cfg
  , s := p.baseS
  , phi := rand.uPhi * (2 * Real.pi) }

/-- The body of `Foam`'s `useEffect` on `enabled`, applied to one particle when
the group is (re-)enabled: fresh lateral position at the surface, height set to
the surface, size restored to the base size, fresh phase. -/
def foamEnableParticle (cfg : FoamCfg) (rand : FoamRand) (p : FoamSeed) : FoamSeed :=
  let r0 := max 0 (foamAllowedAtLocal cfg (foamLocalTop cfg) - cfg.innerShrink)
  let margin := r0 * cfg.wallMarginFrac
  let a := rand.uA * (2 * Real.pi)
  let r := Real.sqrt rand.uR * max 0 (r0 - margin)
  { p with
    x := Real.cos a * r
  , z := Real.sin a * r
  , y := foamLocalTop cfg
  , s := p.baseS
  , phi := rand.uPhi * (2 * Real.pi) }

/-- One per-frame update of one foam particle (the loop body of `useFrame` in
`Foam`): rise and grow, advance phase, lateral drift; while at or below the
surface the lateral position is wall-constrained, above the surface the size is
multiplied by `0.985`; recycle once above `localTop + exitHeight` or once the
size has decayed below `0.003`. -/
def foamStep (cfg : FoamCfg) (rand : FoamRand) (dt : ℝ) (p : FoamSeed) :
    FoamSeed × Transform :=
  let y1 := p.y + p.spd * dt
  let s1 := p.s + p.growth * dt
  let phi1 := p.phi + dt * 1.2
  let tx0 := p.x + driftX phi1 p.drift
  let tz0 := p.z + driftZ phi1 p.drift
  let txz :=
    if y1 ≤ foamLocalTop cfg then
      let rAllowed := foamRAllowedAt cfg s1 y1
      let rr := Real.sqrt (tx0 ^ 2 + tz0 ^ 2)
      if rAllowed < rr then (tx0 * (rAllowed / (rr + 1e-6)), tz0 * (rAllowed / (rr + 1e-6)))
      else (tx0, tz0)
    else (tx0, tz0)
  let s2 := if y1 ≤ foamLocalTop cfg then s1 else s1 * 0.985
  let p1 : FoamSeed := { p with y := y1, s := s2, phi := phi1 }
  let p2 :=
    if foamLocalTop cfg + cfg.exitHeight < p1.y ∨ p1.s < 0.003 then foamRespawn cfg rand p1
    else p1
  (p2,
   { scale := p2.s
   , px := cfg.centerX + txz.1
   , py := cfg.centerY + p2.y
   , pz := cfg.centerZ + txz.2 })

/-- The whole `useFrame` callback of `Foam`: when disabled it returns
immediately, leaving every seed untouched and emitting nothing. -/
def foamFrame (enabled : Bool) (cfg : FoamCfg) (rands : List FoamRand)
    (dt : ℝ) (seeds : List FoamSeed) : List FoamSeed × List Transform :=
  if enabled then
    let out := (seeds.zip rands).map (fun pr => foamStep cfg pr.2 dt pr.1)
    (out.map Prod.fst, out.map Prod.snd)
  else (seeds, [])

/-! ### Concrete fixtures used to exercise the definitions -/

/-- A constant-radius profile (radius 1 everywhere), column from -1 to 1. -/
def prUnit : RadiusProfile :=
  { bottom := -1, height := 2, radii := [1, 1] }

/-- A strongly flared profile: radius 0 at the bottom, 10 at the top. -/
def prSteep : RadiusProfile :=
  { bottom := -1, height := 2, radii := [0, 10] }

/-- Bubble props over the constant profile, with zero margins. -/
def cfgUnit : BubblesCfg :=
  { centerX := 0, centerY := 0, centerZ := 0, radius := 0.1, height := 0.24
  , spawnBand := 0.18, topFade := 0.22, profile := some prUnit
  , wallMarginFrac := 0, innerShrink := 0 }

/-- Bubble props over the flared profile, with zero margins. -/
def cfgSteep : BubblesCfg :=
  { centerX := 0, centerY := 0, centerZ := 0, radius := 0.1, height := 0.24
  , spawnBand := 0.5, topFade := 0.22, profile := some prSteep
  , wallMarginFrac := 0, innerShrink := 0 }

/-- Foam props over the constant profile, with zero margins. -/
def fcfgUnit : FoamCfg :=
  { centerX := 0, centerY := 0, centerZ := 0, profile := prUnit
  , wallMarginFrac := 0, innerShrink := 0, exitHeight := 1 }

/-- All five random draws zero. -/
def randZero : BubbleRand :=
  { uY := 0, uA := 0, uR := 0, uPhi := 0, uDrift := 0 }

/-- All three random draws zero. -/
def frandZero : FoamRand :=
  { uA := 0, uR := 0, uPhi := 0 }

/-- A bubble just below the top of the flared column, off-axis, no drift. -/
def seedHigh : Seed :=
  { x := 5, y := 0.95, z := 0, s := 0, spd := 1, phi := 0, drift := 0, baseY := 0.95 }

/-- A bubble resting mid-column. -/
def seedMid : Seed :=
  { x := 0, y := 0, z := 0, s := 0, spd := 0, phi := 0, drift := 0, baseY := 0 }

/-- A bubble already above the top, with a large accumulated phase. -/
def seedAbove : Seed :=
  { x := 0, y := 2, z := 0, s := 0, spd := 0, phi := 10, drift := 0, baseY := 0 }

/-- A foam particle below the surface. -/
def foamLow : FoamSeed :=
  { x := 0, y := 0, z := 0, s := 0.02, spd := 0.3, growth := 0.01, phi := 0
  , drift := 0.01, baseS := 0.05 }

/-- A foam particle above the surface but below the exit height. -/
def foamAboveSurface : FoamSeed :=
  { x := 0, y := 1.4, z := 0, s := 1, spd := 0, growth := 0, phi := 0
  , drift := 0, baseS := 0.05 }

/-- A foam particle about to pass the exit height. -/
def foamExit : FoamSeed :=
  { x := 0, y := 2, z := 0, s := 1, spd := 1, growth := 0, phi := 0
  , drift := 0, baseS := 0.05 }

end

/-! ## Helper lemmas -/

lemma clamp_nonneg (v hi : ℝ) : 0 ≤ clamp v 0 hi :=
  le_max_left 0 _

lemma clamp_le_hi (v : ℝ) {hi : ℝ} (h : 0 ≤ hi) : clamp v 0 hi ≤ hi :=
  max_le h (min_le_left _ _)

lemma clamp_eq_of_mem {v lo hi : ℝ} (h0 : lo ≤ v) (h1 : v ≤ hi) : clamp v lo hi = v := by
  unfold clamp
  rw [min_eq_right h1, max_eq_right h0]

lemma clamp_idem (v : ℝ) : clamp (clamp v 0 1) 0 1 = clamp v 0 1 :=
  clamp_eq_of_mem (clamp_nonneg v 1) (clamp_le_hi v zero_le_one)

/-- Planar distance after the radial projection `k = A / (rr + 1e-6)` scaled by
a damping `d ≤ 1` never exceeds the allowed radius `A`. -/
lemma constrain_dist_le (A tx tz d : ℝ) (hA : 0 ≤ A) (hd0 : 0 ≤ d) (hd1 : d ≤ 1) :
    Real.sqrt ((tx * (A / (Real.sqrt (tx ^ 2 + tz ^ 2) + 1e-6) * d)) ^ 2
      + (tz * (A / (Real.sqrt (tx ^ 2 + tz ^ 2) + 1e-6) * d)) ^ 2) ≤ A := by
  set rr := Real.sqrt (tx ^ 2 + tz ^ 2) with hrrdef
  have hrr : 0 ≤ rr := Real.sqrt_nonneg _
  have hden : (0 : ℝ) < rr + 1e-6 := by positivity
  set c : ℝ := A / (rr + 1e-6) * d with hcdef
  have hc : 0 ≤ c := by positivity
  have hsq : (tx * c) ^ 2 + (tz * c) ^ 2 = c ^ 2 * (tx ^ 2 + tz ^ 2) := by ring
  rw [hsq, Real.sqrt_mul (sq_nonneg c), Real.sqrt_sq hc, ← hrrdef]
  have hle : c * rr ≤ A := by
    rw [hcdef, div_mul_eq_mul_div, div_mul_eq_mul_div, div_le_iff₀ hden]
    nlinarith [mul_nonneg (mul_nonneg hA hrr) (sub_nonneg.2 hd1), mul_nonneg hA hrr]
  exact hle

/-- Planar distance of an area-uniform disk sample `(cos a * r, sin a * r)`. -/
lemma spawn_dist (a r : ℝ) (hr : 0 ≤ r) :
    Real.sqrt ((Real.cos a * r) ^ 2 + (Real.sin a * r) ^ 2) = r := by
  have hsum : (Real.cos a * r) ^ 2 + (Real.sin a * r) ^ 2 = r ^ 2 := by
    have hpy := Real.sin_sq_add_cos_sq a
    linear_combination r ^ 2 * hpy
  rw [hsum, Real.sqrt_sq hr]

lemma sampleRadius_prUnit (y : ℝ) : sampleRadius prUnit y = 1 := by
  have hc0 : 0 ≤ clamp y 0 1 := clamp_nonneg y 1
  unfold sampleRadius prUnit
  simp only [List.length_cons, List.length_nil]
  norm_num
  intro hlt
  have hfl : ⌊clamp y 0 1⌋ = 0 := by
    have h0 : 0 ≤ ⌊clamp y 0 1⌋ := Int.floor_nonneg.2 hc0
    omega
  rw [hfl]
  norm_num [lerp]

lemma localTopB_cfgUnit : localTopB cfgUnit = 1 := by
  norm_num [localTopB, colH, cfgUnit, prUnit]

lemma localBottomB_cfgUnit : localBottomB cfgUnit = -1 := by
  norm_num [localBottomB, colH, cfgUnit, prUnit]

lemma allowed_cfgUnit (y : ℝ) : allowedRadiusAtLocal cfgUnit y = 1 := by
  unfold allowedRadiusAtLocal
  simp only [cfgUnit]
  exact sampleRadius_prUnit _

lemma rLocal_cfgUnit (y : ℝ) : rLocalAt cfgUnit y = 1 := by
  unfold rLocalAt
  rw [allowed_cfgUnit]
  norm_num [cfgUnit]

lemma bubbleRespawn_y (cfg : BubblesCfg) (rand : BubbleRand) (p : Seed) :
    (bubbleRespawn cfg rand p).y
      = localBottomB cfg + rand.uY * (colH cfg * cfg.spawnBand) := rfl

lemma bubbleRespawn_x (cfg : BubblesCfg) (rand : BubbleRand) (p : Seed) :
    (bubbleRespawn cfg rand p).x
      = Real.cos (rand.uA * (2 * Real.pi))
        * (Real.sqrt rand.uR
          * max 0 (rLocalAt cfg (bubbleRespawn cfg rand p).y
              - rLocalAt cfg (bubbleRespawn cfg rand p).y * cfg.wallMarginFrac)) := rfl

lemma bubbleRespawn_z (cfg : BubblesCfg) (rand : BubbleRand) (p : Seed) :
    (bubbleRespawn cfg rand p).z
      = Real.sin (rand.uA * (2 * Real.pi))
        * (Real.sqrt rand.uR
          * max 0 (rLocalAt cfg (bubbleRespawn cfg rand p).y
              - rLocalAt cfg (bubbleRespawn cfg rand p).y * cfg.wallMarginFrac)) := rfl

lemma bubbleRespawn_phi (cfg : BubblesCfg) (rand : BubbleRand) (p : Seed) :
    (bubbleRespawn cfg rand p).phi = rand.uPhi * (2 * Real.pi) := rfl

lemma bubbleRespawn_drift (cfg : BubblesCfg) (rand : BubbleRand) (p : Seed) :
    (bubbleRespawn cfg rand p).drift
      = rLocalAt cfg (bubbleRespawn cfg rand p).y * lerp 0.01 0.03 rand.uDrift := rfl

lemma bubbleRespawn_baseY (cfg : BubblesCfg) (rand : BubbleRand) (p : Seed) :
    (bubbleRespawn cfg rand p).baseY = (bubbleRespawn cfg rand p).y := rfl

lemma bubbleStep_py (cfg : BubblesCfg) (rand : BubbleRand) (dt : ℝ) (p : Seed) :
    (bubbleStep cfg rand dt p).2.py = cfg.centerY + (bubbleStep cfg rand dt p).1.y := rfl

lemma clamp_one_of_ge {y : ℝ} (h : 1 ≤ y) : clamp y 0 1 = 1 := by
  unfold clamp
  rw [min_eq_left h]
  exact max_eq_right zero_le_one

lemma sampleRadius_prSteep_zero : sampleRadius prSteep 0 = 0 := by
  have hcl : clamp (0 : ℝ) 0 1 = 0 := clamp_eq_of_mem le_rfl zero_le_one
  unfold sampleRadius prSteep
  simp only [List.length_cons, List.length_nil]
  norm_num
  rw [hcl]
  norm_num [lerp, Int.fract_zero, Int.floor_zero]

lemma sampleRadius_prSteep_top {y : ℝ} (h : 1 ≤ y) : sampleRadius prSteep y = 10 := by
  have hcl : clamp y 0 1 = 1 := clamp_one_of_ge h
  unfold sampleRadius prSteep
  simp only [List.length_cons, List.length_nil]
  norm_num
  rw [hcl]
  intro hlt
  norm_num [Int.floor_one] at hlt

lemma colH_cfgSteep : colH cfgSteep = 2 := by
  norm_num [colH, cfgSteep, prSteep]

lemma allowed_cfgSteep (y : ℝ) :
    allowedRadiusAtLocal cfgSteep y = sampleRadius prSteep ((y + 1) / 2) := by
  show sampleRadius prSteep ((cfgSteep.centerY + y - prSteep.bottom) / max 1e-6 (colH cfgSteep)) = _
  rw [colH_cfgSteep, show max (1e-6) (2:ℝ) = 2 from max_eq_right (by norm_num)]
  congr 1
  norm_num [cfgSteep, prSteep]

lemma foamLocalTop_fcfgUnit : foamLocalTop fcfgUnit = 1 := by
  norm_num [foamLocalTop, fcfgUnit, prUnit]

lemma foamAllowed_fcfgUnit (y : ℝ) : foamAllowedAtLocal fcfgUnit y = 1 :=
  sampleRadius_prUnit _

/-! ## Claims -/

/-- C8 (confirmed): calling the per-frame update with `enabled = false` changes
no particle state and emits no transforms, for both the bubble and the foam
group. -/
theorem disabled_update_identity (cfg : BubblesCfg) (fcfg : FoamCfg)
    (rands : List BubbleRand) (frands : List FoamRand) (dt : ℝ)
    (seeds : List Seed) (fseeds : List FoamSeed) :
    bubblesFrame false cfg rands dt seeds = (seeds, []) ∧
    foamFrame false fcfg frands dt fseeds = (fseeds, []) :=
  ⟨rfl, rfl⟩

/-- C9 (confirmed): the rendered size after fade application is strictly
positive for every base size and every normalized height in `[0,1]` (indeed the
`Math.max(0.0001, ...)` floor makes it positive unconditionally). -/
theorem fade_size_pos (topFade baseSize tNorm : ℝ)
    (h0 : 0 ≤ tNorm) (h1 : tNorm ≤ 1) :
    0 < fadedSize topFade baseSize tNorm := by
  unfold fadedSize
  have h : (0 : ℝ) < 0.0001 := by norm_num
  exact lt_of_lt_of_le h (le_max_left _ _)

/-- Witness for `fade_size_pos` at `topFade = 0.22`, `baseSize = 0.02`,
`tNorm = 0.5`. -/
theorem fade_size_pos_witness :
    (0 : ℝ) ≤ 0.5 ∧ (0.5 : ℝ) ≤ 1 ∧ 0 < fadedSize 0.22 0.02 0.5 :=
  ⟨by norm_num, by norm_num, fade_size_pos 0.22 0.02 0.5 (by norm_num) (by norm_num)⟩

/-- C4 (corrected, counterexample): re-enabling the Foam group does NOT
preserve the particle pool: the `useEffect` on `enabled` moves a particle that
was mid-column back to the surface (height 1 here), so its position after
re-enabling differs from its value at the moment of disabling. -/
theorem foam_enable_respawns_counterexample :
    (foamEnableParticle fcfgUnit frandZero foamLow).y ≠ foamLow.y ∧
    (foamEnableParticle fcfgUnit frandZero foamLow).s ≠ foamLow.s := by
  constructor <;>
    simp only [foamEnableParticle, foamLocalTop, fcfgUnit, prUnit, foamLow] <;>
    norm_num

/-- C4 (amended): the Bubbles group has no enable transition, so its pool is
preserved across disable/enable; the Foam group's enable transition respawns
every particle at the surface — height set to `localTop`, size restored to the
base size, fresh phase and lateral position — while speed, growth, drift and
base size are preserved. -/
theorem foam_enable_transition_spec (cfg : FoamCfg) (rand : FoamRand) (p : FoamSeed) :
    (foamEnableParticle cfg rand p).y = foamLocalTop cfg ∧
    (foamEnableParticle cfg rand p).s = p.baseS ∧
    (foamEnableParticle cfg rand p).phi = rand.uPhi * (2 * Real.pi) ∧
    (foamEnableParticle cfg rand p).spd = p.spd ∧
    (foamEnableParticle cfg rand p).growth = p.growth ∧
    (foamEnableParticle cfg rand p).drift = p.drift ∧
    (foamEnableParticle cfg rand p).baseS = p.baseS :=
  ⟨rfl, rfl, rfl, rfl, rfl, rfl, rfl⟩

/-- C6 (corrected, counterexample): the phase is NOT monotone across a recycle:
a bubble above the top with accumulated phase 10 is recycled with a fresh
random phase 0, which is smaller. -/
theorem phase_decreases_on_recycle_counterexample :
    (bubbleStep cfgUnit randZero 0 seedAbove).1.phi < seedAbove.phi := by
  have hrec : localTopB cfgUnit < seedAbove.y + seedAbove.spd * 0 := by
    rw [localTopB_cfgUnit]; norm_num [seedAbove]
  simp only [bubbleStep]
  rw [if_pos hrec]
  simp only [bubbleRespawn, randZero, seedAbove]
  norm_num

/-- C6 (amended): in an update that does not recycle the particle, the phase
advances by exactly `dt * 1.6`, hence is non-decreasing whenever `dt ≥ 0`; on a
recycle the phase is reassigned a fresh random value in `[0, 2π)`, which may
decrease it. -/
theorem phase_monotone_no_recycle (cfg : BubblesCfg) (rand : BubbleRand) (dt : ℝ) (p : Seed)
    (h : p.y + p.spd * dt ≤ localTopB cfg) (hdt : 0 ≤ dt) :
    (bubbleStep cfg rand dt p).1.phi = p.phi + dt * 1.6 ∧
    p.phi ≤ (bubbleStep cfg rand dt p).1.phi := by
  have hnr : ¬ localTopB cfg < p.y + p.spd * dt := not_lt.2 h
  have hphi : (bubbleStep cfg rand dt p).1.phi = p.phi + dt * 1.6 := by
    simp only [bubbleStep]
    rw [if_neg hnr]
  refine ⟨hphi, ?_⟩
  rw [hphi]
  nlinarith

/-- Witness for `phase_monotone_no_recycle`: a mid-column bubble at `dt = 0.1`. -/
theorem phase_monotone_no_recycle_witness :
    (bubbleStep cfgUnit randZero 0.1 seedMid).1.phi = seedMid.phi + 0.1 * 1.6 ∧
    seedMid.phi ≤ (bubbleStep cfgUnit randZero 0.1 seedMid).1.phi :=
  phase_monotone_no_recycle cfgUnit randZero 0.1 seedMid
    (by rw [localTopB_cfgUnit]; norm_num [seedMid]) (by norm_num)

/-- C7 (confirmed): when the profile pinches so that the margin-adjusted radius
is ≤ 0, the allowed radius clamps to exactly 0 (never negative), the emitted
lateral position is the axis, and the projection divisor `rr + 1e-6` is
strictly positive (the computation is everywhere well defined — no NaN). -/
theorem containment_degenerate_safe (cfg : BubblesCfg) (rand : BubbleRand) (dt : ℝ) (p : Seed)
    (hdeg : rLocalAt cfg (p.y + p.spd * dt)
        - (rLocalAt cfg (p.y + p.spd * dt) * cfg.wallMarginFrac + p.s * 0.6) ≤ 0) :
    rAllowedAt cfg p.s (p.y + p.spd * dt) = 0 ∧
    (0 : ℝ) ≤ rAllowedAt cfg p.s (p.y + p.spd * dt) ∧
    (bubbleStep cfg rand dt p).2.px = cfg.centerX ∧
    (bubbleStep cfg rand dt p).2.pz = cfg.centerZ ∧
    0 < Real.sqrt ((p.x + driftX (p.phi + dt * 1.6) p.drift) ^ 2
        + (p.z + driftZ (p.phi + dt * 1.6) p.drift) ^ 2) + 1e-6 := by
  have hA0 : rAllowedAt cfg p.s (p.y + p.spd * dt) = 0 := max_eq_left hdeg
  have hkey : (bubbleStep cfg rand dt p).2.px = cfg.centerX ∧
      (bubbleStep cfg rand dt p).2.pz = cfg.centerZ := by
    simp only [bubbleStep, hA0]
    set tx0 := p.x + driftX (p.phi + dt * 1.6) p.drift with htx
    set tz0 := p.z + driftZ (p.phi + dt * 1.6) p.drift with htz
    by_cases hc : (0 : ℝ) < Real.sqrt (tx0 ^ 2 + tz0 ^ 2)
    · rw [if_pos hc]
      norm_num
    · rw [if_neg hc]
      have hrr0 : Real.sqrt (tx0 ^ 2 + tz0 ^ 2) = 0 :=
        le_antisymm (not_lt.1 hc) (Real.sqrt_nonneg _)
      have hsum : tx0 ^ 2 + tz0 ^ 2 ≤ 0 := Real.sqrt_eq_zero'.1 hrr0
      have hx0 : tx0 = 0 := by nlinarith [sq_nonneg tx0, sq_nonneg tz0]
      have hz0 : tz0 = 0 := by nlinarith [sq_nonneg tx0, sq_nonneg tz0]
      simp [hx0, hz0]
  exact ⟨hA0, hA0.ge, hkey.1, hkey.2, by positivity⟩

/-- Witness for `containment_degenerate_safe`: a degenerate configuration where
the sampled radius is 1 but the particle size term `s * 0.6` eats the whole
allowed radius. -/
theorem containment_degenerate_safe_witness :
    rAllowedAt cfgUnit 2 (0 + 0 * (1 : ℝ)) = 0 ∧
    (bubbleStep cfgUnit randZero 1
      { x := 3, y := 0, z := 0, s := 2, spd := 0, phi := 0, drift := 0, baseY := 0 }).2.px
      = cfgUnit.centerX := by
  have h := containment_degenerate_safe cfgUnit randZero 1
    { x := 3, y := 0, z := 0, s := 2, spd := 0, phi := 0, drift := 0, baseY := 0 }
    (by rw [rLocal_cfgUnit]; norm_num [cfgUnit])
  exact ⟨h.1, h.2.2.1⟩

/-- C1 (amended): in any frame in which the particle is not recycled (its risen
height stays at or below the column top), the emitted planar distance from the
vertical axis is at most the allowed radius sampled at the emitted height. -/
theorem bubble_containment_no_recycle (cfg : BubblesCfg) (rand : BubbleRand) (dt : ℝ) (p : Seed)
    (h : p.y + p.spd * dt ≤ localTopB cfg) :
    Real.sqrt (((bubbleStep cfg rand dt p).2.px - cfg.centerX) ^ 2
        + ((bubbleStep cfg rand dt p).2.pz - cfg.centerZ) ^ 2)
      ≤ rAllowedAt cfg p.s ((bubbleStep cfg rand dt p).2.py - cfg.centerY) := by
  have hnr : ¬ localTopB cfg < p.y + p.spd * dt := not_lt.2 h
  simp only [bubbleStep]
  rw [if_neg hnr]
  set y1 := p.y + p.spd * dt with hy1
  set tx0 := p.x + driftX (p.phi + dt * 1.6) p.drift with htx
  set tz0 := p.z + driftZ (p.phi + dt * 1.6) p.drift with htz
  simp only [add_sub_cancel_left]
  by_cases hc : rAllowedAt cfg p.s y1 < Real.sqrt (tx0 ^ 2 + tz0 ^ 2)
  · rw [if_pos hc]
    exact constrain_dist_le _ tx0 tz0 0.98 (le_max_left 0 _) (by norm_num) (by norm_num)
  · rw [if_neg hc]
    exact not_lt.1 hc

/-- Witness for `bubble_containment_no_recycle`: a mid-column bubble. -/
theorem bubble_containment_no_recycle_witness :
    Real.sqrt (((bubbleStep cfgUnit randZero 0.1 seedMid).2.px - cfgUnit.centerX) ^ 2
        + ((bubbleStep cfgUnit randZero 0.1 seedMid).2.pz - cfgUnit.centerZ) ^ 2)
      ≤ rAllowedAt cfgUnit seedMid.s
          ((bubbleStep cfgUnit randZero 0.1 seedMid).2.py - cfgUnit.centerY) :=
  bubble_containment_no_recycle cfgUnit randZero 0.1 seedMid
    (by rw [localTopB_cfgUnit]; norm_num [seedMid])

/-- C2 (confirmed): a bubble whose risen height exceeds the column top is, in
that same update, respawned inside the bottom spawn band, with lateral position
inside the allowed disk at the new height, a fresh phase and a reset drift
amplitude; in particular it does not remain above the top. -/
theorem bubble_recycle_closure (cfg : BubblesCfg) (rand : BubbleRand) (dt : ℝ) (p : Seed)
    (hrec : localTopB cfg < p.y + p.spd * dt)
    (huY0 : 0 ≤ rand.uY) (huY1 : rand.uY ≤ 1)
    (huR1 : rand.uR ≤ 1)
    (hsb0 : 0 ≤ cfg.spawnBand) (hsb1 : cfg.spawnBand ≤ 1) (hH : 0 ≤ colH cfg) :
    (bubbleStep cfg rand dt p).1.y
        = localBottomB cfg + rand.uY * (colH cfg * cfg.spawnBand) ∧
    localBottomB cfg ≤ (bubbleStep cfg rand dt p).1.y ∧
    (bubbleStep cfg rand dt p).1.y ≤ localBottomB cfg + cfg.spawnBand * colH cfg ∧
    (bubbleStep cfg rand dt p).1.y ≤ localTopB cfg ∧
    Real.sqrt ((bubbleStep cfg rand dt p).1.x ^ 2 + (bubbleStep cfg rand dt p).1.z ^ 2)
      ≤ max 0 (rLocalAt cfg ((bubbleStep cfg rand dt p).1.y)
          - rLocalAt cfg ((bubbleStep cfg rand dt p).1.y) * cfg.wallMarginFrac) ∧
    (bubbleStep cfg rand dt p).1.phi = rand.uPhi * (2 * Real.pi) ∧
    (bubbleStep cfg rand dt p).1.drift
      = rLocalAt cfg ((bubbleStep cfg rand dt p).1.y) * lerp 0.01 0.03 rand.uDrift ∧
    (bubbleStep cfg rand dt p).1.baseY = (bubbleStep cfg rand dt p).1.y := by
  have hq : (bubbleStep cfg rand dt p).1 = bubbleRespawn cfg rand p := by
    simp only [bubbleStep]
    rw [if_pos hrec]
  rw [hq]
  have hband : 0 ≤ colH cfg * cfg.spawnBand := mul_nonneg hH hsb0
  refine ⟨bubbleRespawn_y cfg rand p, ?_, ?_, ?_, ?_,
    bubbleRespawn_phi cfg rand p, bubbleRespawn_drift cfg rand p,
    bubbleRespawn_baseY cfg rand p⟩
  · rw [bubbleRespawn_y]
    nlinarith [mul_nonneg huY0 hband]
  · rw [bubbleRespawn_y]
    nlinarith [mul_le_mul_of_nonneg_right huY1 hband]
  · rw [bubbleRespawn_y]
    simp only [localBottomB, localTopB]
    nlinarith [mul_nonneg (sub_nonneg.2 huY1) hband, mul_nonneg hH (sub_nonneg.2 hsb1)]
  · rw [bubbleRespawn_x, bubbleRespawn_z]
    set r0 := rLocalAt cfg (bubbleRespawn cfg rand p).y with hr0
    have hrpos : 0 ≤ Real.sqrt rand.uR * max 0 (r0 - r0 * cfg.wallMarginFrac) :=
      mul_nonneg (Real.sqrt_nonneg _) (le_max_left 0 _)
    rw [spawn_dist _ _ hrpos]
    exact mul_le_of_le_one_left (le_max_left 0 _) (Real.sqrt_le_one.2 huR1)

/-- Witness for `bubble_recycle_closure`: applying it to a bubble above the top
shows the respawned bubble sits at the bottom of the spawn band, below the top. -/
theorem bubble_recycle_closure_witness :
    (bubbleStep cfgUnit randZero 0 seedAbove).1.y ≤ localTopB cfgUnit ∧
    (bubbleStep cfgUnit randZero 0 seedAbove).1.phi = randZero.uPhi * (2 * Real.pi) := by
  have h := bubble_recycle_closure cfgUnit randZero 0 seedAbove
    (by rw [localTopB_cfgUnit]; norm_num [seedAbove])
    (by norm_num [randZero]) (by norm_num [randZero]) (by norm_num [randZero])
    (by norm_num [cfgUnit]) (by norm_num [cfgUnit])
    (by norm_num [colH, cfgUnit, prUnit])
  exact ⟨h.2.2.2.1, h.2.2.2.2.2.1⟩

/-- C1 (corrected, counterexample): in a frame in which the particle is
recycled at the top, the emitted transform combines the pre-recycle lateral
coordinates with the newly assigned spawn height, and its planar distance from
the axis can exceed the allowed radius sampled at the emitted height by a large
margin: over the flared profile (radius 0 at the bottom, 10 at the top), a
bubble clamped near the top at lateral distance 5 is respawned at the bottom,
where the sampled radius is 0, yet is emitted at lateral distance 5. -/
theorem bubble_containment_recycle_counterexample :
    localTopB cfgSteep < seedHigh.y + seedHigh.spd * 0.1 ∧
    allowedRadiusAtLocal cfgSteep
        ((bubbleStep cfgSteep randZero 0.1 seedHigh).2.py - cfgSteep.centerY) + 4
      ≤ Real.sqrt (((bubbleStep cfgSteep randZero 0.1 seedHigh).2.px - cfgSteep.centerX) ^ 2
          + ((bubbleStep cfgSteep randZero 0.1 seedHigh).2.pz - cfgSteep.centerZ) ^ 2) ∧
    rAllowedAt cfgSteep ((bubbleStep cfgSteep randZero 0.1 seedHigh).1.s)
        ((bubbleStep cfgSteep randZero 0.1 seedHigh).2.py - cfgSteep.centerY) + 4
      ≤ Real.sqrt (((bubbleStep cfgSteep randZero 0.1 seedHigh).2.px - cfgSteep.centerX) ^ 2
          + ((bubbleStep cfgSteep randZero 0.1 seedHigh).2.pz - cfgSteep.centerZ) ^ 2) := by
  have h25 : Real.sqrt ((5:ℝ) ^ 2 + 0 ^ 2) = 5 := by
    rw [show ((5:ℝ) ^ 2 + 0 ^ 2) = 5 ^ 2 by norm_num]
    exact Real.sqrt_sq (by norm_num)
  have hall : allowedRadiusAtLocal cfgSteep (0.95 + 1 * 0.1) = 10 := by
    rw [allowed_cfgSteep]
    exact sampleRadius_prSteep_top (by norm_num)
  have hrA : rAllowedAt cfgSteep 0 (0.95 + 1 * 0.1) = 10 := by
    unfold rAllowedAt rLocalAt
    rw [hall]
    norm_num [cfgSteep]
  have hdX : driftX (0 + 0.1 * 1.6) (0:ℝ) = 0 := mul_zero _
  have hdZ : driftZ (0 + 0.1 * 1.6) (0:ℝ) = 0 := mul_zero _
  have hcond : ¬ (rAllowedAt cfgSteep 0 (0.95 + 1 * 0.1)
      < Real.sqrt ((5 + (0:ℝ)) ^ 2 + (0 + (0:ℝ)) ^ 2)) := by
    rw [hrA, show ((5 + (0:ℝ)) ^ 2 + (0 + (0:ℝ)) ^ 2) = 5 ^ 2 + 0 ^ 2 by norm_num, h25]
    norm_num
  have hpx : (bubbleStep cfgSteep randZero 0.1 seedHigh).2.px = 5 := by
    simp only [bubbleStep, seedHigh, randZero]
    simp only [hdX, hdZ]
    rw [if_neg hcond]
    norm_num [cfgSteep]
  have hpz : (bubbleStep cfgSteep randZero 0.1 seedHigh).2.pz = 0 := by
    simp only [bubbleStep, seedHigh, randZero]
    simp only [hdX, hdZ]
    rw [if_neg hcond]
    norm_num [cfgSteep]
  have hrec : localTopB cfgSteep < seedHigh.y + seedHigh.spd * 0.1 := by
    norm_num [localTopB, colH, cfgSteep, prSteep, seedHigh]
  have hq : (bubbleStep cfgSteep randZero 0.1 seedHigh).1
      = bubbleRespawn cfgSteep randZero seedHigh := by
    simp only [bubbleStep]
    rw [if_pos hrec]
  have hqy : (bubbleStep cfgSteep randZero 0.1 seedHigh).1.y = -1 := by
    rw [hq, bubbleRespawn_y]
    norm_num [localBottomB, colH, cfgSteep, prSteep, randZero]
  have hpy : (bubbleStep cfgSteep randZero 0.1 seedHigh).2.py - cfgSteep.centerY = -1 := by
    rw [bubbleStep_py, hqy]
    norm_num [cfgSteep]
  have hqs : (bubbleStep cfgSteep randZero 0.1 seedHigh).1.s = 0 := by
    rw [hq]
    rfl
  have hallneg : allowedRadiusAtLocal cfgSteep (-1) = 0 := by
    rw [allowed_cfgSteep, show ((-1:ℝ) + 1) / 2 = 0 by norm_num]
    exact sampleRadius_prSteep_zero
  have hdist : Real.sqrt (((bubbleStep cfgSteep randZero 0.1 seedHigh).2.px
        - cfgSteep.centerX) ^ 2
      + ((bubbleStep cfgSteep randZero 0.1 seedHigh).2.pz - cfgSteep.centerZ) ^ 2) = 5 := by
    rw [hpx, hpz, show cfgSteep.centerX = 0 from rfl, show cfgSteep.centerZ = 0 from rfl,
      show ((5:ℝ) - 0) ^ 2 + ((0:ℝ) - 0) ^ 2 = 5 ^ 2 + 0 ^ 2 by norm_num]
    exact h25
  refine ⟨hrec, ?_, ?_⟩
  · rw [hdist, hpy, hallneg]
    norm_num
  · rw [hdist, hpy, hqs]
    have : rAllowedAt cfgSteep 0 (-1) = 0 := by
      unfold rAllowedAt rLocalAt
      rw [hallneg]
      norm_num [cfgSteep]
    rw [this]
    norm_num

/-- C3 (confirmed): `sampleRadius` first clamps `yNormalized` to `[0,1]`
(sampling any argument equals sampling its clamp), maps it to the continuous
index `t = yNormalized * (len - 1)`, and for `⌊t⌋` below the last index returns
the linear interpolation of `radii[⌊t⌋]` and `radii[⌊t⌋ + 1]` with weight
`t - ⌊t⌋`; when `⌊t⌋` reaches the last index it returns the last sample
directly.  The function is a pure Lean function of its arguments, hence
deterministic and side-effect free. -/
theorem sampleRadius_spec (p : RadiusProfile) (y : ℝ) :
    sampleRadius p y = sampleRadius p (clamp y 0 1) ∧
    (p.radii.length ≠ 0 →
      (((p.radii.length : ℤ) - 1 ≤ ⌊clamp y 0 1 * ((p.radii.length : ℝ) - 1)⌋ →
        sampleRadius p y = p.radii.getD (p.radii.length - 1) 0) ∧
       (⌊clamp y 0 1 * ((p.radii.length : ℝ) - 1)⌋ < (p.radii.length : ℤ) - 1 →
        sampleRadius p y
          = p.radii.getD (⌊clamp y 0 1 * ((p.radii.length : ℝ) - 1)⌋.toNat) 0
            + (p.radii.getD (⌊clamp y 0 1 * ((p.radii.length : ℝ) - 1)⌋.toNat + 1) 0
                - p.radii.getD (⌊clamp y 0 1 * ((p.radii.length : ℝ) - 1)⌋.toNat) 0)
              * (clamp y 0 1 * ((p.radii.length : ℝ) - 1)
                  - (⌊clamp y 0 1 * ((p.radii.length : ℝ) - 1)⌋ : ℝ))))) := by
  refine ⟨?_, fun hn => ⟨fun hle => ?_, fun hlt => ?_⟩⟩
  · have h1 : sampleRadius p (clamp y 0 1) = sampleRadius p y := by
      unfold sampleRadius
      rw [clamp_idem]
    exact h1.symm
  · unfold sampleRadius
    rw [if_neg hn, if_pos hle]
  · unfold sampleRadius
    rw [if_neg hn, if_neg (not_le.2 hlt)]
    rfl

/-- Witness for `sampleRadius_spec`: both branches exercised on the profile
with samples `[1, 3]`. -/
theorem sampleRadius_spec_witness :
    sampleRadius ⟨0, 1, [1, 3]⟩ 1 = [1, 3].getD (2 - 1) 0 ∧
    sampleRadius ⟨0, 1, [1, 3]⟩ 0
      = [1, 3].getD 0 0 + ([1, 3].getD 1 0 - [1, 3].getD 0 0)
          * (clamp 0 0 1 * (((2:ℕ) : ℝ) - 1) - ((⌊clamp 0 0 1 * (((2:ℕ) : ℝ) - 1)⌋ : ℤ) : ℝ)) := by
  constructor
  · exact ((sampleRadius_spec ⟨0, 1, [1, 3]⟩ 1).2 (by norm_num)).1
      (by norm_num [clamp, Int.floor_one])
  · have h := ((sampleRadius_spec ⟨0, 1, [1, 3]⟩ 0).2 (by norm_num)).2
      (by norm_num [clamp, Int.floor_zero])
    simpa [clamp, Int.floor_zero] using h

/-- C5 (corrected, counterexample): a foam particle strictly above the surface
but still below the configured exit height, with size far above the minimum, is
already shrunk multiplicatively (by 0.985) in that update — shrinking is not
deferred until the particle passes `exitHeight` or its size decays below the
minimum. -/
theorem foam_shrink_below_exit_counterexample :
    foamLocalTop fcfgUnit < foamAboveSurface.y + foamAboveSurface.spd * 1 ∧
    foamAboveSurface.y + foamAboveSurface.spd * 1
      ≤ foamLocalTop fcfgUnit + fcfgUnit.exitHeight ∧
    (0.003 : ℝ) < (foamStep fcfgUnit frandZero 1 foamAboveSurface).1.s ∧
    (foamStep fcfgUnit frandZero 1 foamAboveSurface).1.s
      < foamAboveSurface.s + foamAboveSurface.growth * 1 := by
  have htop : foamLocalTop fcfgUnit = 1 := foamLocalTop_fcfgUnit
  have hns : ¬ (foamAboveSurface.y + foamAboveSurface.spd * 1 ≤ foamLocalTop fcfgUnit) := by
    rw [htop]
    norm_num [foamAboveSurface]
  have hnr : ¬ (foamLocalTop fcfgUnit + fcfgUnit.exitHeight
        < foamAboveSurface.y + foamAboveSurface.spd * 1 ∨
      (foamAboveSurface.s + foamAboveSurface.growth * 1) * 0.985 < 0.003) := by
    rw [htop]
    norm_num [foamAboveSurface, fcfgUnit]
  have hs : (foamStep fcfgUnit frandZero 1 foamAboveSurface).1.s
      = (foamAboveSurface.s + foamAboveSurface.growth * 1) * 0.985 := by
    simp only [foamStep]
    rw [if_neg hns, if_neg hnr]
  refine ⟨by rw [htop]; norm_num [foamAboveSurface], ?_, ?_, ?_⟩
  · rw [htop]
    norm_num [foamAboveSurface, fcfgUnit]
  · rw [hs]
    norm_num [foamAboveSurface]
  · rw [hs]
    norm_num [foamAboveSurface]

/-- C5 (amended): per-frame foam update — while at or below the surface the
size changes only by the growth increment and the lateral position is
wall-constrained to the allowed radius; strictly above the surface the size is
multiplied by 0.985 (after the growth increment); the particle recycles to a
surface spawn with size restored to its base size exactly when its new height
exceeds `localTop + exitHeight` or its post-update size has decayed below
0.003. -/
theorem foam_update_spec (cfg : FoamCfg) (rand : FoamRand) (dt : ℝ) (p : FoamSeed) :
    ((foamLocalTop cfg + cfg.exitHeight < p.y + p.spd * dt ∨
        (if p.y + p.spd * dt ≤ foamLocalTop cfg then p.s + p.growth * dt
         else (p.s + p.growth * dt) * 0.985) < 0.003) →
      (foamStep cfg rand dt p).1.y = foamLocalTop cfg ∧
      (foamStep cfg rand dt p).1.s = p.baseS) ∧
    (¬ (foamLocalTop cfg + cfg.exitHeight < p.y + p.spd * dt ∨
        (if p.y + p.spd * dt ≤ foamLocalTop cfg then p.s + p.growth * dt
         else (p.s + p.growth * dt) * 0.985) < 0.003) →
      (foamStep cfg rand dt p).1.y = p.y + p.spd * dt ∧
      (foamStep cfg rand dt p).1.s =
        (if p.y + p.spd * dt ≤ foamLocalTop cfg then p.s + p.growth * dt
         else (p.s + p.growth * dt) * 0.985)) ∧
    (p.y + p.spd * dt ≤ foamLocalTop cfg →
      Real.sqrt (((foamStep cfg rand dt p).2.px - cfg.centerX) ^ 2
          + ((foamStep cfg rand dt p).2.pz - cfg.centerZ) ^ 2)
        ≤ foamRAllowedAt cfg (p.s + p.growth * dt) (p.y + p.spd * dt)) := by
  refine ⟨fun hrec => ?_, fun hnr => ?_, fun hsurf => ?_⟩
  · have hq : (foamStep cfg rand dt p).1
        = foamRespawn cfg rand
            { p with
                y := p.y + p.spd * dt,
                s := (if p.y + p.spd * dt ≤ foamLocalTop cfg then p.s + p.growth * dt
                  else (p.s + p.growth * dt) * 0.985),
                phi := p.phi + dt * 1.2 } := by
      simp only [foamStep]
      rw [if_pos hrec]
    rw [hq]
    exact ⟨rfl, rfl⟩
  · have hq : (foamStep cfg rand dt p).1
        = { p with
              y := p.y + p.spd * dt,
              s := (if p.y + p.spd * dt ≤ foamLocalTop cfg then p.s + p.growth * dt
                else (p.s + p.growth * dt) * 0.985),
              phi := p.phi + dt * 1.2 } := by
      simp only [foamStep]
      rw [if_neg hnr]
    rw [hq]
    exact ⟨rfl, rfl⟩
  · simp only [foamStep]
    rw [if_pos hsurf]
    set tx0 := p.x + driftX (p.phi + dt * 1.2) p.drift with htx
    set tz0 := p.z + driftZ (p.phi + dt * 1.2) p.drift with htz
    set A := foamRAllowedAt cfg (p.s + p.growth * dt) (p.y + p.spd * dt) with hA
    have hA0 : 0 ≤ A := le_max_left 0 _
    simp only [add_sub_cancel_left]
    by_cases hc : A < Real.sqrt (tx0 ^ 2 + tz0 ^ 2)
    · rw [if_pos hc]
      have h := constrain_dist_le A tx0 tz0 1 hA0 zero_le_one le_rfl
      simpa using h
    · rw [if_neg hc]
      exact not_lt.1 hc

/-- Witness for `foam_update_spec`: a particle past the exit height recycles to
the surface with its base size, and a particle below the surface stays wall
contained. -/
theorem foam_update_spec_witness :
    (foamStep fcfgUnit frandZero 1 foamExit).1.y = foamLocalTop fcfgUnit ∧
    (foamStep fcfgUnit frandZero 1 foamExit).1.s = foamExit.baseS ∧
    Real.sqrt (((foamStep fcfgUnit frandZero 0.1 foamLow).2.px - fcfgUnit.centerX) ^ 2
        + ((foamStep fcfgUnit frandZero 0.1 foamLow).2.pz - fcfgUnit.centerZ) ^ 2)
      ≤ foamRAllowedAt fcfgUnit (foamLow.s + foamLow.growth * 0.1)
          (foamLow.y + foamLow.spd * 0.1) := by
  have h1 := (foam_update_spec fcfgUnit frandZero 1 foamExit).1
    (Or.inl (by rw [foamLocalTop_fcfgUnit]; norm_num [foamExit, fcfgUnit]))
  have h2 := (foam_update_spec fcfgUnit frandZero 0.1 foamLow).2.2
    (by rw [foamLocalTop_fcfgUnit]; norm_num [foamLow])
  exact ⟨h1.1, h1.2, h2⟩

/-! ## Reaction-engine lemmas -/

lemma mem_firstKeys {x : String} : ∀ {l : List String}, x ∈ firstKeys l ↔ x ∈ l := by
  intro l
  induction l with
  | nil => simp [firstKeys]
  | cons a t ih =>
    simp only [firstKeys, List.mem_cons, List.mem_filter, bne_iff_ne]
    constructor
    · rintro (rfl | ⟨hx, _⟩)
      · exact Or.inl rfl
      · exact Or.inr (ih.1 hx)
    · rintro (rfl | hx)
      · exact Or.inl rfl
      · by_cases hxa : x = a
        · exact Or.inl hxa
        · exact Or.inr ⟨ih.2 hx, hxa⟩

lemma nodup_firstKeys : ∀ l : List String, (firstKeys l).Nodup := by
  intro l
  induction l with
  | nil => simp [firstKeys]
  | cons a t ih =>
    simp only [firstKeys]
    rw [List.nodup_cons]
    refine ⟨?_, ih.filter _⟩
    simp [List.mem_filter]

lemma insertBy_perm (le : α → α → Bool) (x : α) :
    ∀ l : List α, (insertBy le x l).Perm (x :: l) := by
  intro l
  induction l with
  | nil => exact List.Perm.refl _
  | cons y t ih =>
    unfold insertBy
    cases hxy : le x y with
    | true => exact List.Perm.refl _
    | false =>
      simp only [Bool.false_eq_true, if_false]
      exact (ih.cons y).trans (List.Perm.swap x y t)

lemma sortBy_perm (le : α → α → Bool) : ∀ l : List α, (sortBy le l).Perm l := by
  intro l
  induction l with
  | nil => exact List.Perm.refl _
  | cons x t ih =>
    unfold sortBy
    exact (insertBy_perm le x (sortBy le t)).trans (ih.cons x)

lemma insertBy_pairwise {le : α → α → Bool}
    (htot : ∀ a b, le a b = true ∨ le b a = true)
    (htrans : ∀ a b c, le a b = true → le b c = true → le a c = true)
    (x : α) : ∀ {l : List α}, l.Pairwise (fun a b => le a b = true) →
      (insertBy le x l).Pairwise (fun a b => le a b = true) := by
  intro l
  induction l with
  | nil =>
    intro _
    simp [insertBy]
  | cons y t ih =>
    intro hl
    rcases List.pairwise_cons.1 hl with ⟨hy, ht⟩
    unfold insertBy
    cases hxy : le x y with
    | true =>
      simp only [if_true]
      rw [List.pairwise_cons]
      refine ⟨?_, hl⟩
      intro b hb
      rcases List.mem_cons.1 hb with rfl | hb
      · exact hxy
      · exact htrans x y b hxy (hy b hb)
    | false =>
      simp only [Bool.false_eq_true, if_false]
      rw [List.pairwise_cons]
      refine ⟨?_, ih ht⟩
      intro b hb
      have hb' : b ∈ x :: t := (insertBy_perm le x t).mem_iff.1 hb
      rcases List.mem_cons.1 hb' with hbx | hb'
      · rw [hbx]
        rcases htot x y with h | h
        · rw [hxy] at h
          simp at h
        · exact h
      · exact hy b hb'

lemma sortBy_pairwise {le : α → α → Bool}
    (htot : ∀ a b, le a b = true ∨ le b a = true)
    (htrans : ∀ a b c, le a b = true → le b c = true → le a c = true) :
    ∀ l : List α, (sortBy le l).Pairwise (fun a b => le a b = true) := by
  intro l
  induction l with
  | nil => simp [sortBy]
  | cons x t ih =>
    unfold sortBy
    exact insertBy_pairwise htot htrans x ih

lemma strLeChars_total : ∀ x y : List Char, strLeChars x y = true ∨ strLeChars y x = true := by
  intro x
  induction x with
  | nil => intro y; left; rfl
  | cons c cs ih =>
    intro y
    cases y with
    | nil => right; rfl
    | cons d ds =>
      by_cases hcd : c = d
      · subst hcd
        simp only [strLeChars, if_pos rfl]
        exact ih ds
      · have hdc : ¬ d = c := fun h => hcd h.symm
        simp only [strLeChars, if_neg hcd, if_neg hdc]
        rcases lt_or_gt_of_ne hcd with h | h
        · left; exact decide_eq_true h
        · right; exact decide_eq_true h

lemma strLeChars_trans : ∀ x y z : List Char,
    strLeChars x y = true → strLeChars y z = true → strLeChars x z = true := by
  intro x
  induction x with
  | nil => intro y z _ _; rfl
  | cons c cs ih =>
    intro y z hxy hyz
    cases y with
    | nil => simp [strLeChars] at hxy
    | cons d ds =>
      cases z with
      | nil => simp [strLeChars] at hyz
      | cons e es =>
        by_cases hcd : c = d
        · subst hcd
          simp only [strLeChars, if_pos rfl] at hxy
          by_cases hce : c = e
          · subst hce
            simp only [strLeChars, if_pos rfl] at hyz ⊢
            exact ih ds es hxy hyz
          · simp only [strLeChars, if_neg hce] at hyz ⊢
            exact hyz
        · simp only [strLeChars, if_neg hcd] at hxy
          have hlt : c < d := of_decide_eq_true hxy
          by_cases hde : d = e
          · subst hde
            simp only [strLeChars, if_neg hcd]
            exact decide_eq_true hlt
          · simp only [strLeChars, if_neg hde] at hyz
            have hlt2 : d < e := of_decide_eq_true hyz
            have hce : c < e := lt_trans hlt hlt2
            simp only [strLeChars, if_neg (ne_of_lt hce)]
            exact decide_eq_true hce

lemma strLeChars_antisymm : ∀ x y : List Char,
    strLeChars x y = true → strLeChars y x = true → x = y := by
  intro x
  induction x with
  | nil =>
    intro y _ hyx
    cases y with
    | nil => rfl
    | cons d ds => simp [strLeChars] at hyx
  | cons c cs ih =>
    intro y hxy hyx
    cases y with
    | nil => simp [strLeChars] at hxy
    | cons d ds =>
      by_cases hcd : c = d
      · subst hcd
        simp only [strLeChars, if_pos rfl] at hxy hyx
        rw [ih ds hxy hyx]
      · have hdc : ¬ d = c := fun h => hcd h.symm
        simp only [strLeChars, if_neg hcd] at hxy
        simp only [strLeChars, if_neg hdc] at hyx
        exact absurd (of_decide_eq_true hyx) (asymm (of_decide_eq_true hxy))

lemma entryLe_total : ∀ e f : String × Nat, entryLe e f = true ∨ entryLe f e = true :=
  fun e f => strLeChars_total e.1.data f.1.data

lemma entryLe_trans : ∀ e f g : String × Nat,
    entryLe e f = true → entryLe f g = true → entryLe e g = true :=
  fun e f g => strLeChars_trans e.1.data f.1.data g.1.data

lemma entryLe_key_eq {e f : String × Nat}
    (h1 : entryLe e f = true) (h2 : entryLe f e = true) : e.1 = f.1 :=
  String.ext (strLeChars_antisymm e.1.data f.1.data h1 h2)

lemma sorted_entries_unique : ∀ l₁ l₂ : List (String × Nat),
    l₁.Perm l₂ → l₁.Pairwise (fun e f => entryLe e f = true) →
    l₂.Pairwise (fun e f => entryLe e f = true) →
    (l₁.map Prod.fst).Nodup → l₁ = l₂ := by
  intro l₁
  induction l₁ with
  | nil =>
    intro l₂ hp _ _ _
    exact (List.perm_nil.1 hp.symm).symm
  | cons e t ih =>
    intro l₂ hp hs₁ hs₂ hnd
    cases l₂ with
    | nil => exact absurd (List.perm_nil.1 hp) (by simp)
    | cons f t₂ =>
      rcases List.pairwise_cons.1 hs₁ with ⟨he, ht⟩
      rcases List.pairwise_cons.1 hs₂ with ⟨hf, ht₂⟩
      by_cases hef : e = f
      · subst hef
        rw [ih t₂ hp.cons_inv ht ht₂ (by
          rw [List.map_cons, List.nodup_cons] at hnd
          exact hnd.2)]
      · exfalso
        have he₂ : e ∈ t₂ := by
          rcases List.mem_cons.1 (hp.mem_iff.1 (List.mem_cons_self e t)) with h | h
          · exact absurd h hef
          · exact h
        have hf₁ : f ∈ t := by
          rcases List.mem_cons.1 (hp.symm.mem_iff.1 (List.mem_cons_self f t₂)) with h | h
          · exact absurd h.symm hef
          · exact h
        have hkey : e.1 = f.1 := entryLe_key_eq (he f hf₁) (hf e he₂)
        rw [List.map_cons, List.nodup_cons] at hnd
        exact hnd.1 (hkey ▸ List.mem_map_of_mem Prod.fst hf₁)

lemma entriesOf_keys (a : List String) : (entriesOf a).map Prod.fst = firstKeys a := by
  unfold entriesOf
  rw [List.map_map]
  exact List.map_id _

lemma normalize_perm {a b : List String} (h : a.Perm b) : normalize a = normalize b := by
  have hcount : ∀ id, a.count id = b.count id := fun id => h.count_eq id
  have hkperm : (firstKeys a).Perm (firstKeys b) := by
    refine (List.perm_ext_iff_of_nodup (nodup_firstKeys a) (nodup_firstKeys b)).2 ?_
    intro x
    rw [mem_firstKeys, mem_firstKeys]
    exact h.mem_iff
  have hentperm : (entriesOf a).Perm (entriesOf b) := by
    unfold entriesOf
    rw [List.map_congr_left (fun id _ => by rw [hcount id] :
      ∀ id ∈ firstKeys a, (id, a.count id) = (id, b.count id))]
    exact hkperm.map _
  have hsperm : (sortBy entryLe (entriesOf a)).Perm (sortBy entryLe (entriesOf b)) :=
    ((sortBy_perm _ _).trans hentperm).trans (sortBy_perm _ _).symm
  have hnd : ((sortBy entryLe (entriesOf a)).map Prod.fst).Nodup := by
    have h1 : ((sortBy entryLe (entriesOf a)).map Prod.fst).Perm (firstKeys a) := by
      rw [← entriesOf_keys a]
      exact (sortBy_perm _ _).map _
    exact h1.symm.nodup (nodup_firstKeys a)
  unfold normalize
  rw [sorted_entries_unique _ _ hsperm
    (sortBy_pairwise entryLe_total entryLe_trans _)
    (sortBy_pairwise entryLe_total entryLe_trans _) hnd]

lemma find?_congr {p q : α → Bool} :
    ∀ l : List α, (∀ x ∈ l, p x = q x) → l.find? p = l.find? q := by
  intro l
  induction l with
  | nil => intro _; rfl
  | cons x xs ih =>
    intro h
    have hx := h x (List.mem_cons_self x xs)
    simp only [List.find?]
    rw [hx]
    cases hq : q x with
    | true => rfl
    | false => exact ih (fun y hy => h y (List.mem_cons_of_mem x hy))

lemma toDigitsCore_acc : ∀ (fuel n : ℕ) (ds : List Char),
    Nat.toDigitsCore 10 fuel n ds = Nat.toDigitsCore 10 fuel n [] ++ ds := by
  intro fuel
  induction fuel with
  | zero => intro n ds; rfl
  | succ f ih =>
    intro n ds
    simp only [Nat.toDigitsCore]
    by_cases h : n / 10 = 0
    · rw [if_pos h, if_pos h]
      rfl
    · rw [if_neg h, if_neg h]
      rw [ih (n / 10) (Nat.digitChar (n % 10) :: ds), ih (n / 10) [Nat.digitChar (n % 10)]]
      simp

lemma toDigitsCore_fuel : ∀ (n f₁ f₂ : ℕ), n < f₁ → n < f₂ →
    Nat.toDigitsCore 10 f₁ n [] = Nat.toDigitsCore 10 f₂ n [] := by
  intro n
  induction n using Nat.strong_induction_on with
  | _ n ih =>
    intro f₁ f₂ h₁ h₂
    cases f₁ with
    | zero => omega
    | succ g₁ =>
      cases f₂ with
      | zero => omega
      | succ g₂ =>
        simp only [Nat.toDigitsCore]
        by_cases h : n / 10 = 0
        · rw [if_pos h, if_pos h]
        · rw [if_neg h, if_neg h]
          rw [toDigitsCore_acc g₁ (n / 10), toDigitsCore_acc g₂ (n / 10)]
          have hlt : n / 10 < n := by omega
          rw [ih (n / 10) hlt (g₁) (g₂) (by omega) (by omega)]

lemma toDigits_lt (n : ℕ) (h : n < 10) : Nat.toDigits 10 n = [Nat.digitChar n] := by
  unfold Nat.toDigits
  simp only [Nat.toDigitsCore]
  rw [if_pos (by omega : n / 10 = 0), Nat.mod_eq_of_lt h]

lemma toDigits_ge (n : ℕ) (h : 10 ≤ n) :
    Nat.toDigits 10 n = Nat.toDigits 10 (n / 10) ++ [Nat.digitChar (n % 10)] := by
  unfold Nat.toDigits
  simp only [Nat.toDigitsCore]
  rw [if_neg (by omega : ¬ n / 10 = 0)]
  rw [toDigitsCore_acc n (n / 10)]
  congr 1
  exact toDigitsCore_fuel (n / 10) n (n / 10 + 1) (by omega) (by omega)

lemma digitChar_inj : ∀ m < 10, ∀ k < 10, Nat.digitChar m = Nat.digitChar k → m = k := by
  decide

lemma digitChar_ne : ∀ m < 10, Nat.digitChar m ≠ '+' ∧ Nat.digitChar m ≠ ':' := by
  decide

lemma toDigits_facts : ∀ n : ℕ,
    Nat.toDigits 10 n ≠ [] ∧ '+' ∉ Nat.toDigits 10 n ∧ ':' ∉ Nat.toDigits 10 n := by
  intro n
  induction n using Nat.strong_induction_on with
  | _ n ih =>
    by_cases h : n < 10
    · rw [toDigits_lt n h]
      have hd := digitChar_ne n h
      refine ⟨by simp, ?_, ?_⟩ <;> simp [List.mem_singleton] <;> intro hc
      · exact hd.1 hc.symm
      · exact hd.2 hc.symm
    · rw [toDigits_ge n (by omega)]
      have hmod := digitChar_ne (n % 10) (Nat.mod_lt _ (by norm_num))
      have hrec := ih (n / 10) (by omega)
      refine ⟨by simp, ?_, ?_⟩ <;> intro hmem <;> rcases List.mem_append.1 hmem with hA | hd
      · exact hrec.2.1 hA
      · simp at hd
        exact hmod.1 hd.symm
      · exact hrec.2.2 hA
      · simp at hd
        exact hmod.2 hd.symm

lemma toDigits_injective : ∀ m n : ℕ, Nat.toDigits 10 m = Nat.toDigits 10 n → m = n := by
  intro m
  induction m using Nat.strong_induction_on with
  | _ m ih =>
    intro n h
    by_cases hm : m < 10 <;> by_cases hn : n < 10
    · rw [toDigits_lt m hm, toDigits_lt n hn] at h
      simp at h
      exact digitChar_inj m hm n hn h
    · rw [toDigits_lt m hm, toDigits_ge n (by omega)] at h
      have hlen := congrArg List.length h
      simp at hlen
      exact absurd hlen (toDigits_facts (n / 10)).1
    · rw [toDigits_ge m (by omega), toDigits_lt n hn] at h
      have hlen := congrArg List.length h
      simp at hlen
      exact absurd hlen (toDigits_facts (m / 10)).1
    · rw [toDigits_ge m (by omega), toDigits_ge n (by omega)] at h
      have hsp := List.append_inj' h (by simp)
      have hmod : m % 10 = n % 10 := by
        have h2 := hsp.2
        simp at h2
        exact digitChar_inj _ (Nat.mod_lt _ (by norm_num)) _ (Nat.mod_lt _ (by norm_num)) h2
      have hdiv : m / 10 = n / 10 := ih (m / 10) (by omega) (n / 10) hsp.1
      omega

lemma append_cons_inj {c : Char} : ∀ {p q s t : List Char},
    c ∉ p → c ∉ q → p ++ c :: s = q ++ c :: t → p = q ∧ s = t := by
  intro p
  induction p with
  | nil =>
    intro q s t _ hq h
    cases q with
    | nil =>
      simp only [List.nil_append, List.cons.injEq] at h
      exact ⟨rfl, h.2⟩
    | cons d q' =>
      exfalso
      simp only [List.nil_append, List.cons_append, List.cons.injEq] at h
      exact hq (h.1 ▸ List.mem_cons_self d q')
  | cons a p' ih =>
    intro q s t hp hq h
    cases q with
    | nil =>
      exfalso
      simp only [List.cons_append, List.nil_append, List.cons.injEq] at h
      exact hp (h.1 ▸ List.mem_cons_self a p')
    | cons b q' =>
      simp only [List.cons_append, List.cons.injEq] at h
      obtain ⟨hab, h2⟩ := h
      have hres := ih (fun hm => hp (List.mem_cons_of_mem a hm))
        (fun hm => hq (List.mem_cons_of_mem b hm)) h2
      exact ⟨by rw [hab, hres.1], hres.2⟩

lemma joinParts_cons_cons (p q : List Char) (ps : List (List Char)) :
    joinParts (p :: q :: ps) = p ++ '+' :: joinParts (q :: ps) := rfl

lemma joinParts_inj : ∀ ps qs : List (List Char),
    (∀ p ∈ ps, p ≠ [] ∧ '+' ∉ p) → (∀ q ∈ qs, q ≠ [] ∧ '+' ∉ q) →
    joinParts ps = joinParts qs → ps = qs := by
  intro ps
  induction ps with
  | nil =>
    intro qs _ hq h
    cases qs with
    | nil => rfl
    | cons q qs' =>
      exfalso
      cases qs' with
      | nil => exact (hq q (List.mem_cons_self q [])).1 (by simpa using h.symm)
      | cons q2 qs'' =>
        rw [joinParts_cons_cons] at h
        exact (hq q (List.mem_cons_self q _)).1 (List.append_eq_nil.1 h.symm).1
  | cons p ps' ih =>
    intro qs hp hq h
    cases qs with
    | nil =>
      exfalso
      cases ps' with
      | nil => exact (hp p (List.mem_cons_self p [])).1 (by simpa using h)
      | cons p2 ps'' =>
        rw [joinParts_cons_cons] at h
        exact (hp p (List.mem_cons_self p _)).1 (List.append_eq_nil.1 h).1
    | cons q qs' =>
      cases ps' with
      | nil =>
        cases qs' with
        | nil => simpa using h
        | cons q2 qs'' =>
          exfalso
          rw [joinParts_cons_cons] at h
          have hm : '+' ∈ (q ++ '+' :: joinParts (q2 :: qs'')) :=
            List.mem_append_right _ (List.mem_cons_self _ _)
          rw [← h] at hm
          exact (hp p (List.mem_cons_self p _)).2 (by simpa using hm)
      | cons p2 ps'' =>
        cases qs' with
        | nil =>
          exfalso
          rw [joinParts_cons_cons] at h
          have hm : '+' ∈ (p ++ '+' :: joinParts (p2 :: ps'')) :=
            List.mem_append_right _ (List.mem_cons_self _ _)
          rw [h] at hm
          exact (hq q (List.mem_cons_self q _)).2 (by simpa using hm)
        | cons q2 qs'' =>
          rw [joinParts_cons_cons, joinParts_cons_cons] at h
          have hsplit := append_cons_inj (hp p (List.mem_cons_self p _)).2
            (hq q (List.mem_cons_self q _)).2 h
          have htail := ih (q2 :: qs'')
            (fun x hx => hp x (List.mem_cons_of_mem p hx))
            (fun x hx => hq x (List.mem_cons_of_mem q hx)) hsplit.2
          rw [hsplit.1, htail]

lemma joinPlus_data : ∀ l : List String,
    (joinPlus l).data = joinParts (l.map String.data) := by
  intro l
  induction l with
  | nil => rfl
  | cons p ps ih =>
    cases ps with
    | nil => rfl
    | cons q qs =>
      show (p ++ "+" ++ joinPlus (q :: qs)).data = _
      rw [String.data_append, String.data_append, ih]
      simp only [List.map_cons]
      rw [joinParts_cons_cons]
      simp

lemma partStr_data (e : String × Nat) :
    (e.1 ++ ":" ++ toString e.2).data = e.1.data ++ ':' :: Nat.toDigits 10 e.2 := by
  rw [String.data_append, String.data_append]
  show e.1.data ++ [':'] ++ Nat.toDigits 10 e.2 = _
  simp

lemma part_ne_nil_plus_free {e : String × Nat} (hc : CleanId e.1) :
    (e.1 ++ ":" ++ toString e.2).data ≠ [] ∧ '+' ∉ (e.1 ++ ":" ++ toString e.2).data := by
  rw [partStr_data]
  constructor
  · simp
  · intro hmem
    rcases List.mem_append.1 hmem with h | h
    · exact hc.2 h
    · rcases List.mem_cons.1 h with h | h
      · exact absurd h (by decide)
      · exact (toDigits_facts e.2).2.1 h

lemma entries_of_partsData : ∀ l₁ l₂ : List (String × Nat),
    (∀ e ∈ l₁, CleanId e.1) → (∀ e ∈ l₂, CleanId e.1) →
    l₁.map (fun e => (e.1 ++ ":" ++ toString e.2).data)
      = l₂.map (fun e => (e.1 ++ ":" ++ toString e.2).data) →
    l₁ = l₂ := by
  intro l₁
  induction l₁ with
  | nil =>
    intro l₂ _ _ h
    cases l₂ with
    | nil => rfl
    | cons f t₂ => simp at h
  | cons e t ih =>
    intro l₂ hc₁ hc₂ h
    cases l₂ with
    | nil => simp at h
    | cons f t₂ =>
      simp only [List.map_cons, List.cons.injEq] at h
      obtain ⟨hhead, htail⟩ := h
      rw [partStr_data, partStr_data] at hhead
      have hsplit := append_cons_inj (hc₁ e (List.mem_cons_self e t)).1
        (hc₂ f (List.mem_cons_self f t₂)).1 hhead
      have hid : e.1 = f.1 := String.ext hsplit.1
      have hcnt : e.2 = f.2 := toDigits_injective _ _ hsplit.2
      have hef : e = f := Prod.ext_iff.2 ⟨hid, hcnt⟩
      rw [hef, ih t₂ (fun x hx => hc₁ x (List.mem_cons_of_mem e hx))
        (fun x hx => hc₂ x (List.mem_cons_of_mem f hx)) htail]

lemma sortedEntries_eq_of_normalize_eq {a b : List String}
    (hca : ∀ id ∈ a, CleanId id) (hcb : ∀ id ∈ b, CleanId id)
    (h : normalize a = normalize b) :
    sortBy entryLe (entriesOf a) = sortBy entryLe (entriesOf b) := by
  have hcleanA : ∀ e ∈ sortBy entryLe (entriesOf a), CleanId e.1 := by
    intro e he
    have hmem : e ∈ entriesOf a := (sortBy_perm _ _).mem_iff.1 he
    unfold entriesOf at hmem
    rcases List.mem_map.1 hmem with ⟨k, hk, hpair⟩
    rw [← hpair]
    exact hca k (mem_firstKeys.1 hk)
  have hcleanB : ∀ e ∈ sortBy entryLe (entriesOf b), CleanId e.1 := by
    intro e he
    have hmem : e ∈ entriesOf b := (sortBy_perm _ _).mem_iff.1 he
    unfold entriesOf at hmem
    rcases List.mem_map.1 hmem with ⟨k, hk, hpair⟩
    rw [← hpair]
    exact hcb k (mem_firstKeys.1 hk)
  have hdata := congrArg String.data h
  unfold normalize at hdata
  rw [joinPlus_data, joinPlus_data, List.map_map, List.map_map] at hdata
  have hparts := joinParts_inj _ _
    (by
      intro pd hpd
      rcases List.mem_map.1 hpd with ⟨e, he, hpe⟩
      rw [← hpe]
      exact part_ne_nil_plus_free (hcleanA e he))
    (by
      intro pd hpd
      rcases List.mem_map.1 hpd with ⟨e, he, hpe⟩
      rw [← hpe]
      exact part_ne_nil_plus_free (hcleanB e he))
    hdata
  exact entries_of_partsData _ _ hcleanA hcleanB hparts

lemma count_eq_of_sortedEntries_eq {a b : List String}
    (h : sortBy entryLe (entriesOf a) = sortBy entryLe (entriesOf b)) :
    ∀ id, a.count id = b.count id := by
  intro id
  have hmemE : ∀ e : String × Nat, e ∈ entriesOf a ↔ e ∈ entriesOf b := by
    intro e
    rw [← (sortBy_perm entryLe (entriesOf a)).mem_iff, h,
      (sortBy_perm entryLe (entriesOf b)).mem_iff]
  by_cases hida : id ∈ a
  · have h1 : (id, a.count id) ∈ entriesOf a :=
      List.mem_map_of_mem _ (mem_firstKeys.2 hida)
    have h2 : (id, a.count id) ∈ entriesOf b := (hmemE _).1 h1
    unfold entriesOf at h2
    rcases List.mem_map.1 h2 with ⟨k, _, hpair⟩
    have hk : k = id := congrArg Prod.fst hpair
    rw [hk] at hpair
    exact (congrArg Prod.snd hpair).symm
  · have ha0 : a.count id = 0 := List.count_eq_zero.2 hida
    by_cases hidb : id ∈ b
    · exfalso
      have h1 : (id, b.count id) ∈ entriesOf b :=
        List.mem_map_of_mem _ (mem_firstKeys.2 hidb)
      have h2 : (id, b.count id) ∈ entriesOf a := (hmemE _).2 h1
      unfold entriesOf at h2
      rcases List.mem_map.1 h2 with ⟨k, hkmem, hpair⟩
      have hk : k = id := congrArg Prod.fst hpair
      rw [hk] at hkmem
      exact hida (mem_firstKeys.1 hkmem)
    · rw [ha0, List.count_eq_zero.2 hidb]

/-! ## Claims about the reaction engine -/

/-- C10 (corrected, counterexample): the multiset key is NOT injective on
arbitrary reagent ids — the single-element list `["a:1+b"]` and the two-element
list `["a", "b"]` produce the same key `"a:1+b:1"`, so `sameInputs` declares
them equal although the multiplicity of `"a"` differs (0 versus 1). -/
theorem normalize_collision_counterexample :
    sameInputs ["a:1+b"] ["a", "b"] = true ∧
    (["a:1+b"] : List String).count "a" = 0 ∧
    (["a", "b"] : List String).count "a" = 1 := by
  refine ⟨?_, ?_, ?_⟩ <;> decide

/-- C10 (amended): reaction matching is order-insensitive — permuting the input
reagent list never changes the outcome of `react` — and it is count-sensitive
on reagent ids that contain neither `':'` nor `'+'` (in particular on every id
occurring in the game data): for such ids, lists judged equal by `sameInputs`
have identical multiplicities for every reagent.  For ids containing the
separator characters the key can collide (see the counterexample). -/
theorem react_multiset_semantics :
    (∀ (inputs₁ inputs₂ : List String) (opts : ReactOpts),
        inputs₁.Perm inputs₂ → react inputs₁ opts = react inputs₂ opts) ∧
    (∀ a b : List String, (∀ id ∈ a, CleanId id) → (∀ id ∈ b, CleanId id) →
        sameInputs a b = true → ∀ id, a.count id = b.count id) := by
  constructor
  · intro inputs₁ inputs₂ opts hperm
    unfold react findRule
    rw [find?_congr reactionDB (fun r _ => by
      have hsame : sameInputs r.inputs inputs₁ = sameInputs r.inputs inputs₂ := by
        unfold sameInputs
        rw [normalize_perm hperm]
      rw [hsame])]
  · intro a b hca hcb h
    have hnorm : normalize a = normalize b := by
      simpa [sameInputs] using h
    exact count_eq_of_sortedEntries_eq (sortedEntries_eq_of_normalize_eq hca hcb hnorm)

/-- Witness for `react_multiset_semantics`: swapping vinegar and baking soda
gives the same outcome, and two clean singleton lists judged equal have the
same count of `"vinegar"`. -/
theorem react_multiset_semantics_witness :
    react ["vinegar", "baking_soda"] defaultOpts
      = react ["baking_soda", "vinegar"] defaultOpts ∧
    (["vinegar"] : List String).count "vinegar"
      = (["vinegar"] : List String).count "vinegar" :=
  ⟨react_multiset_semantics.1 _ _ defaultOpts (List.Perm.swap "baking_soda" "vinegar" []),
   react_multiset_semantics.2 ["vinegar"] ["vinegar"]
     (by
       intro id hid
       rw [List.mem_singleton] at hid
       subst hid
       exact ⟨by decide, by decide⟩)
     (by
       intro id hid
       rw [List.mem_singleton] at hid
       subst hid
       exact ⟨by decide, by decide⟩)
     (by decide) "vinegar"⟩

end ChemGame
